import Mathlib

/-!
Verification of the curriculum-vitae extractor's reconstructable core:
the Span Ordering Engine (`OCR_text_from_pdf`), the table renderer
(`table_to_markdown`), the Multi-Page Batch Driver (`analyze_document`),
the JSON fence stripping of `CV_Reader_Agent.parse_into_json`, and the
`MIN_WORD_THRESHOLD` configuration constant.

The embedding works over explicit character lists so that every operation
mirrors Python string semantics (`str.split`, substring membership,
`str.lower`) and is executable by the kernel.  External collaborators
(the Azure analysis call, `fitz`, the `json` module) are modelled by
their documented input/output behaviour; everything else is translated
from `src/core/client/document_intelligence_client.py` and
`src/core/agent/cv_reader_agent.py`.
-/

/-- Model of Python `s.split(sep)` for a non-empty separator, on character
lists, with explicit fuel (one unit per character consumed, so `s.length`
fuel always suffices): scan left to right, cutting at each non-overlapping
occurrence of `sep`.  Out of fuel the remaining text is returned as one
part; the wrapper `pysplit` supplies enough fuel for this never to happen. -/
def pysplitAux (sep : List Char) : Nat → List Char → List (List Char)
  | _, [] => [[]]
  | 0, s => [s]
  | fuel + 1, c :: rest =>
    if List.isPrefixOf sep (c :: rest) ∧ sep ≠ [] then
      [] :: pysplitAux sep fuel (List.drop sep.length (c :: rest))
    else
      match pysplitAux sep fuel rest with
      | [] => [[c]]
      | p :: ps => (c :: p) :: ps

/-- Python `s.split(sep)`: always returns at least one part. -/
def pysplit (sep s : List Char) : List (List Char) := pysplitAux sep s.length s

/-- Model of Python's substring test `sep in s`: some position of `s`
starts with `sep`. -/
def occursIn (sep : List Char) : List Char → Bool
  | [] => List.isPrefixOf sep []
  | c :: rest => List.isPrefixOf sep (c :: rest) || occursIn sep rest

/-- Model of Python `s.lower()` (the separators handled here are ASCII). -/
def pylower (s : List Char) : List Char := s.map Char.toLower

/-- JSON values, as returned by the Python `json` module on the subset of
JSON this system exchanges (objects, arrays, strings without escape
sequences, integers, booleans, null). -/
inductive Json where
  | null : Json
  | bool (b : Bool) : Json
  | num (n : Int) : Json
  | str (s : String) : Json
  | arr (elems : List Json) : Json
  | obj (fields : List (String × Json)) : Json

/-- Skip JSON whitespace. -/
def skipWs : List Char → List Char
  | [] => []
  | c :: rest => if c = ' ' ∨ c = '\n' ∨ c = '\t' ∨ c = '\r' then skipWs rest else c :: rest

/-- Body of a JSON string after the opening quote, up to the closing
quote (escape sequences are outside the modelled subset). -/
def parseStringBody : List Char → Option (List Char × List Char)
  | [] => none
  | c :: rest =>
    if c = '"' then some ([], rest)
    else
      match parseStringBody rest with
      | some (t, r) => some (c :: t, r)
      | none => none

/-- Accumulate decimal digits. -/
def parseDigitsAux : List Char → Nat → Nat × List Char
  | [], acc => (acc, [])
  | c :: rest, acc =>
    if c.isDigit then parseDigitsAux rest (acc * 10 + (c.toNat - 48)) else (acc, c :: rest)

/-- A non-empty run of decimal digits as a number. -/
def parseNat : List Char → Option (Nat × List Char)
  | [] => none
  | c :: rest => if c.isDigit then some (parseDigitsAux rest (c.toNat - 48)) else none

mutual

/-- Recursive-descent JSON value parser, fuel-bounded (the wrapper
`json_loads` supplies fuel exceeding the input length, which bounds the
recursion depth). -/
def parseValue : Nat → List Char → Option (Json × List Char)
  | 0, _ => none
  | fuel + 1, s =>
    match skipWs s with
    | [] => none
    | c :: rest =>
      if c = Char.ofNat 123 then parseObjFields fuel rest
      else if c = '[' then parseArrElems fuel rest
      else if c = '"' then
        match parseStringBody rest with
        | some (t, r) => some (Json.str (String.mk t), r)
        | none => none
      else if c = 't' then
        if List.isPrefixOf ['r', 'u', 'e'] rest then some (Json.bool true, rest.drop 3) else none
      else if c = 'f' then
        if List.isPrefixOf ['a', 'l', 's', 'e'] rest then
          some (Json.bool false, rest.drop 4)
        else none
      else if c = 'n' then
        if List.isPrefixOf ['u', 'l', 'l'] rest then some (Json.null, rest.drop 3) else none
      else if c = '-' then
        match parseNat rest with
        | some (n, r) => some (Json.num (-(n : Int)), r)
        | none => none
      else if c.isDigit then
        match parseNat (c :: rest) with
        | some (n, r) => some (Json.num (n : Int), r)
        | none => none
      else none

/-- After an opening brace: an empty object or its members. -/
def parseObjFields : Nat → List Char → Option (Json × List Char)
  | 0, _ => none
  | fuel + 1, s =>
    match skipWs s with
    | [] => none
    | c :: rest =>
      if c = Char.ofNat 125 then some (Json.obj [], rest)
      else
        match parseMembers fuel (c :: rest) with
        | some (fs, r) => some (Json.obj fs, r)
        | none => none

/-- One or more `"key": value` members up to the closing brace. -/
def parseMembers : Nat → List Char → Option (List (String × Json) × List Char)
  | 0, _ => none
  | fuel + 1, s =>
    match skipWs s with
    | '"' :: rest =>
      match parseStringBody rest with
      | some (k, r1) =>
        match skipWs r1 with
        | ':' :: r2 =>
          match parseValue fuel r2 with
          | some (v, r3) =>
            match skipWs r3 with
            | ',' :: r4 =>
              match parseMembers fuel r4 with
              | some (fs, r5) => some ((String.mk k, v) :: fs, r5)
              | none => none
            | c2 :: r4 => if c2 = Char.ofNat 125 then some ([(String.mk k, v)], r4) else none
            | [] => none
          | none => none
        | _ => none
      | none => none
    | _ => none

/-- After an opening bracket: an empty array or its elements. -/
def parseArrElems : Nat → List Char → Option (Json × List Char)
  | 0, _ => none
  | fuel + 1, s =>
    match skipWs s with
    | ']' :: rest => some (Json.arr [], rest)
    | s2 =>
      match parseElems fuel s2 with
      | some (vs, r) => some (Json.arr vs, r)
      | none => none

/-- One or more array elements up to the closing bracket. -/
def parseElems : Nat → List Char → Option (List Json × List Char)
  | 0, _ => none
  | fuel + 1, s =>
    match parseValue fuel s with
    | some (v, r) =>
      match skipWs r with
      | ',' :: r2 =>
        match parseElems fuel r2 with
        | some (vs, r3) => some (v :: vs, r3)
        | none => none
      | ']' :: r2 => some ([v], r2)
      | _ => none
    | none => none

end

/-- Model of Python `json.loads` on the modelled JSON subset: parse one
value, then require only whitespace to remain.  `none` models the
`json.JSONDecodeError` the Python call raises on invalid input. -/
def json_loads (s : List Char) : Option Json :=
  match parseValue (s.length + 1) s with
  | some (v, rest) => if skipWs rest = [] then some v else none
  | none => none

/-- The default fence separator of `parse_into_json` (its Python default
argument). -/
def ucSep : List Char := "```JSON".toList

/-- The closing-fence marker split on by `parse_into_json`. -/
def tickSep : List Char := "```".toList

/-- Embedding of `CV_Reader_Agent.parse_into_json`
(src/core/agent/cv_reader_agent.py, lines 13-20).  If splitting on the
uppercase fence yields a single part, fall back to the lowercase fence;
if the separator occurs (and yields more than one part), keep the text
after the first occurrence; finally keep the text before the next
closing fence and hand it to the JSON parser.  `none` models a raised
exception. -/
def parse_into_json (llm_response : String) : Option Json :=
  let s := llm_response.toList
  let separator := if (pysplit ucSep s).length > 1 then ucSep else pylower ucSep
  let body :=
    if occursIn separator s && decide ((pysplit separator s).length > 1) then
      (pysplit separator s).getD 1 []
    else s
  json_loads ((pysplit tickSep body).getD 0 [])

/-- A span of an analysis result: only its `offset` field is read by the
code (`spans[0].offset`). -/
structure Span where
  offset : Nat
deriving DecidableEq

/-- A paragraph of an analysis result: `content`, an optional `role`
(Python `None` is `none`), and its spans. -/
structure Paragraph where
  content : String
  role : Option String
  spans : List Span
deriving DecidableEq

/-- A table cell: the code reads `row_index` and `content`. -/
structure Cell where
  row_index : Nat
  content : String
deriving DecidableEq

/-- A table of an analysis result: its cells, `row_count`, and spans. -/
structure Table where
  cells : List Cell
  row_count : Nat
  spans : List Span
deriving DecidableEq

/-- The analysis result the external document-analysis call returns: the
two sequences the Span Ordering Engine reads. -/
structure AnalyzeResult where
  paragraphs : List Paragraph
  tables : List Table
deriving DecidableEq

/-- Python `spans[0].offset`.  The analysis service always returns at
least one span per paragraph/table; on an empty list Python would raise
`IndexError`, modelled here by the default offset 0. -/
def firstOffset (spans : List Span) : Nat :=
  match spans with
  | [] => 0
  | sp :: _ => sp.offset

/-- Embedding of `table_to_markdown`
(src/core/client/document_intelligence_client.py, lines 19-29): header
row (cells with `row_index == 0`) joined by `" | "` and bracketed with
pipes, a `---` separator per header cell, then one row per remaining
`row_index` in `range(1, row_count)`. -/
def table_to_markdown (table : Table) : String :=
  let headers := (table.cells.filter (fun c => c.row_index == 0)).map (fun c => c.content)
  let markdown := "| " ++ String.intercalate " | " headers ++ " |\n"
  let markdown := markdown ++ "| " ++
    String.intercalate " | " (List.replicate headers.length "---") ++ " |\n"
  (List.range' 1 (table.row_count - 1)).foldl
    (fun acc row_index =>
      acc ++ "| " ++
        String.intercalate " | "
          ((table.cells.filter (fun c => c.row_index == row_index)).map (fun c => c.content)) ++
        " |\n")
    markdown

/-- The `check` flag of `OCR_text_from_pdf` (lines 74-78): the paragraph
content equals some cell content of some table of the result. -/
def cellMatch (result : AnalyzeResult) (content : String) : Bool :=
  result.tables.any (fun table => table.cells.any (fun cell => content == cell.content))

/-- Python `len(content.split(' '))`: word count splitting on single
spaces. -/
def wordCount (content : String) : Nat := (pysplit [' '] content.toList).length

/-- The guard of line 80: a paragraph is pushed into the queue iff its
content matches no table cell, its role is not `'pageNumber'`, and its
word count strictly exceeds the configured minimum word threshold. -/
def keepParagraph (min_word_threshold : Nat) (result : AnalyzeResult) (p : Paragraph) : Bool :=
  !cellMatch result p.content && p.role != some "pageNumber" &&
    decide (wordCount p.content > min_word_threshold)

/-- The `(priority, item)` pairs pushed for paragraphs (first loop of
`OCR_text_from_pdf`, lines 73-81), in push order. -/
def paragraphEntries (min_word_threshold : Nat) (result : AnalyzeResult) :
    List (Nat × String) :=
  (result.paragraphs.filter (keepParagraph min_word_threshold result)).map
    (fun p => (firstOffset p.spans, p.content))

/-- The `(priority, item)` pairs pushed for tables (second loop, lines
83-85), in push order. -/
def tableEntries (result : AnalyzeResult) : List (Nat × String) :=
  result.tables.map (fun table => (firstOffset table.spans, table_to_markdown table))

/-- Everything pushed into the priority queue before it is drained:
paragraph entries first, then table entries. -/
def pqEntries (min_word_threshold : Nat) (result : AnalyzeResult) : List (Nat × String) :=
  paragraphEntries min_word_threshold result ++ tableEntries result

/-- The order `heapq` drains `(priority, item)` tuples in: by priority,
then by Python's string comparison on the item (Lean's `≤` on `String`
is the same lexicographic order on character values). -/
def fragLe (a b : Nat × String) : Prop :=
  a.1 < b.1 ∨ (a.1 = b.1 ∧ a.2 ≤ b.2)

instance : DecidableRel fragLe := fun a b =>
  inferInstanceAs (Decidable (a.1 < b.1 ∨ (a.1 = b.1 ∧ a.2 ≤ b.2)))

/-- Remove a `fragLe`-least element: the value `heapq.heappop` returns on
a queue holding these entries (elements comparing equal under `fragLe`
are equal, so which physical copy the heap removes is immaterial). -/
def popMin : List (Nat × String) → Option ((Nat × String) × List (Nat × String))
  | [] => none
  | x :: xs =>
    match popMin xs with
    | none => some (x, [])
    | some (m, rest) => if fragLe x m then some (x, xs) else some (m, x :: rest)

/-- The `while not pq.is_empty(): pq.pop()` drain loop (lines 87-89),
fuel-bounded by the queue size. -/
def drainAux : Nat → List (Nat × String) → List (Nat × String)
  | 0, _ => []
  | fuel + 1, q =>
    match popMin q with
    | none => []
    | some (m, rest) => m :: drainAux fuel rest

/-- The sequence of items the queue yields, in pop order. -/
def drain (q : List (Nat × String)) : List (Nat × String) := drainAux q.length q

/-- The fragments `OCR_text_from_pdf` emits, in emission order. -/
def emitted (min_word_threshold : Nat) (result : AnalyzeResult) : List (Nat × String) :=
  drain (pqEntries min_word_threshold result)

/-- Embedding of `OCR_text_from_pdf` (lines 64-90) from the analysis
result onward (the network call producing `result` is the external
collaborator): push the filtered paragraphs and the rendered tables,
then drain the queue concatenating each item followed by a newline. -/
def OCR_text_from_pdf (min_word_threshold : Nat) (result : AnalyzeResult) : String :=
  (emitted min_word_threshold result).foldl (fun acc e => acc ++ e.2 ++ "\n") ""

/-- The window start pages the `while page < num_pages` loop of
`analyze_document` iterates over (lines 99-105), fuel-bounded (the page
steps by 2000 each turn, so `num_pages` fuel always suffices). -/
def windowStartsAux : Nat → Nat → Nat → List Nat
  | 0, _, _ => []
  | fuel + 1, page, num_pages =>
    if page < num_pages then page :: windowStartsAux fuel (page + 2000) num_pages else []

/-- The start pages issued for a document of `num_pages` pages: 1, 2001,
4001, ... while the start is below `num_pages`. -/
def windowStarts (num_pages : Nat) : List Nat := windowStartsAux num_pages 1 num_pages

/-- The window strings `f"{page}-{page+1999}"` issued, in issue order. -/
def windows (num_pages : Nat) : List String :=
  (windowStarts num_pages).map (fun page => toString page ++ "-" ++ toString (page + 1999))

/-- Embedding of `analyze_document` (lines 93-106).  The local `fitz`
inspection is abstracted into `num_pages`, and the external analysis
plus Span Ordering Engine into `ocr`, which receives `none` for an
unrestricted call (`docx`) and `some window` for a page-windowed call. -/
def analyze_document (ocr : Option String → String) (file_type : String)
    (num_pages : Nat) : String :=
  if file_type == "docx" then ocr none
  else (windows num_pages).foldl (fun acc w => acc ++ ocr (some w)) ""

/-- A Python value relevant to the `MIN_WORD_THRESHOLD` configuration:
an `int` or a `str`. -/
inductive PyVal where
  | int (n : Int) : PyVal
  | str (s : String) : PyVal
deriving DecidableEq

/-- Embedding of line 13,
`MIN_WORD_THRESHOLD = os.environ.get("MIN_WORD_THRESHOLD", 1)`: when the
environment variable is unset `os.environ.get` returns the `int`
default 1; when it is set it returns the variable's value as a `str`. -/
def MIN_WORD_THRESHOLD (env : Option String) : PyVal :=
  match env with
  | none => PyVal.int 1
  | some s => PyVal.str s

/-- Python 3 `>` on these values: comparing two `int`s succeeds;
comparing an `int` with a `str` (in either order) raises `TypeError`. -/
def pyGt : PyVal → PyVal → Except String Bool
  | PyVal.int a, PyVal.int b => Except.ok (decide (b < a))
  | PyVal.str a, PyVal.str b => Except.ok (decide (b < a))
  | _, _ => Except.error "TypeError"

/-- A separator that occurs nowhere in `s` splits `s` into the single
part `s` (for any fuel), exactly as in Python. -/
lemma pysplitAux_of_not_occurs (sep : List Char) :
    ∀ (s : List Char) (fuel : Nat), occursIn sep s = false → pysplitAux sep fuel s = [s] := by
  intro s
  induction s with
  | nil => intro fuel _; cases fuel <;> rfl
  | cons c rest ih =>
    intro fuel h
    rw [occursIn, Bool.or_eq_false_iff] at h
    obtain ⟨h1, h2⟩ := h
    cases fuel with
    | zero => rfl
    | succ fuel =>
      have hcond : ¬(List.isPrefixOf sep (c :: rest) = true ∧ sep ≠ []) := by
        simp [h1]
      rw [pysplitAux, if_neg hcond, ih fuel h2]

/-- `pysplit` form of the previous lemma. -/
lemma pysplit_of_not_occurs {sep s : List Char} (h : occursIn sep s = false) :
    pysplit sep s = [s] :=
  pysplitAux_of_not_occurs sep s s.length h

/-- If a prefix-extension of `sep` occurs in `s`, so does `sep`. -/
lemma occursIn_mono {sep1 sep2 : List Char} (hp : sep1 <+: sep2) :
    ∀ s, occursIn sep2 s = true → occursIn sep1 s = true := by
  intro s
  induction s with
  | nil =>
    intro h
    rw [occursIn, List.isPrefixOf_iff_prefix, List.prefix_nil] at h ⊢
    rw [h] at hp
    exact List.prefix_nil.mp hp
  | cons c rest ih =>
    intro h
    rw [occursIn, Bool.or_eq_true] at h ⊢
    rcases h with h | h
    · exact Or.inl (List.isPrefixOf_iff_prefix.mpr
        (hp.trans (List.isPrefixOf_iff_prefix.mp h)))
    · exact Or.inr (ih h)

/-- Contrapositive form: no occurrence of `sep` rules out any occurrence
of a prefix-extension of `sep`. -/
lemma not_occursIn_mono {sep1 sep2 : List Char} (hp : sep1 <+: sep2)
    {s : List Char} (h : occursIn sep1 s = false) : occursIn sep2 s = false := by
  cases h2 : occursIn sep2 s with
  | false => rfl
  | true => rw [occursIn_mono hp s h2] at h; cases h

lemma fragLe_refl (a : Nat × String) : fragLe a a := Or.inr ⟨rfl, le_refl _⟩

lemma fragLe_total (a b : Nat × String) : fragLe a b ∨ fragLe b a := by
  rcases Nat.lt_trichotomy a.1 b.1 with h | h | h
  · exact Or.inl (Or.inl h)
  · rcases le_total a.2 b.2 with hs | hs
    · exact Or.inl (Or.inr ⟨h, hs⟩)
    · exact Or.inr (Or.inr ⟨h.symm, hs⟩)
  · exact Or.inr (Or.inl h)

lemma fragLe_trans {a b c : Nat × String} (hab : fragLe a b) (hbc : fragLe b c) :
    fragLe a c := by
  rcases hab with h | ⟨e1, hs1⟩ <;> rcases hbc with h' | ⟨e2, hs2⟩
  · exact Or.inl (h.trans h')
  · exact Or.inl (e2 ▸ h)
  · exact Or.inl (e1 ▸ h')
  · exact Or.inr ⟨e1.trans e2, le_trans hs1 hs2⟩

lemma fragLe_antisymm {a b : Nat × String} (hab : fragLe a b) (hba : fragLe b a) :
    a = b := by
  rcases hab with h | ⟨e1, hs1⟩ <;> rcases hba with h' | ⟨e2, hs2⟩
  · omega
  · omega
  · omega
  · exact Prod.ext e1 (le_antisymm hs1 hs2)

instance : IsTotal (Nat × String) fragLe := ⟨fragLe_total⟩

instance : IsTrans (Nat × String) fragLe := ⟨fun _ _ _ => fragLe_trans⟩

instance : IsAntisymm (Nat × String) fragLe := ⟨fun _ _ => fragLe_antisymm⟩

lemma popMin_none_iff {q : List (Nat × String)} : popMin q = none ↔ q = [] := by
  cases q with
  | nil => simp [popMin]
  | cons x xs =>
    simp only [popMin]
    cases hx : popMin xs with
    | none => simp
    | some p => cases p with | mk m rest => by_cases hle : fragLe x m <;> simp [hle]

lemma popMin_length {q : List (Nat × String)} {m : Nat × String}
    {rest : List (Nat × String)} (h : popMin q = some (m, rest)) :
    rest.length + 1 = q.length := by
  induction q generalizing m rest with
  | nil => cases h
  | cons x xs ih =>
    rw [popMin] at h
    split at h
    next hx =>
      cases h
      obtain rfl := popMin_none_iff.mp hx
      rfl
    next m2 rest2 hx =>
      split at h
      next hle => cases h; rfl
      next hle =>
        cases h
        have := ih hx
        simp only [List.length_cons]
        omega

lemma popMin_perm {q : List (Nat × String)} {m : Nat × String}
    {rest : List (Nat × String)} (h : popMin q = some (m, rest)) :
    q.Perm (m :: rest) := by
  induction q generalizing m rest with
  | nil => cases h
  | cons x xs ih =>
    rw [popMin] at h
    split at h
    next hx =>
      cases h
      obtain rfl := popMin_none_iff.mp hx
      exact List.Perm.refl _
    next m2 rest2 hx =>
      split at h
      next hle =>
        cases h
        exact List.Perm.refl _
      next hle =>
        cases h
        exact ((ih hx).cons x).trans (List.Perm.swap m x rest2)

lemma popMin_min {q : List (Nat × String)} {m : Nat × String}
    {rest : List (Nat × String)} (h : popMin q = some (m, rest)) :
    ∀ y ∈ q, fragLe m y := by
  induction q generalizing m rest with
  | nil => cases h
  | cons x xs ih =>
    rw [popMin] at h
    split at h
    next hx =>
      cases h
      obtain rfl := popMin_none_iff.mp hx
      intro y hy
      rcases List.mem_cons.mp hy with rfl | hy
      · exact fragLe_refl _
      · cases hy
    next m2 rest2 hx =>
      split at h
      next hle =>
        cases h
        intro y hy
        rcases List.mem_cons.mp hy with rfl | hy
        · exact fragLe_refl _
        · exact fragLe_trans hle (ih hx y hy)
      next hle =>
        cases h
        have hmx : fragLe m x := (fragLe_total x m).resolve_left hle
        intro y hy
        rcases List.mem_cons.mp hy with rfl | hy
        · exact hmx
        · exact ih hx y hy

lemma drainAux_perm : ∀ (fuel : Nat) (q : List (Nat × String)), q.length ≤ fuel →
    (drainAux fuel q).Perm q := by
  intro fuel
  induction fuel with
  | zero =>
    intro q hq
    obtain rfl : q = [] := List.eq_nil_of_length_eq_zero (Nat.le_zero.mp hq)
    exact List.Perm.refl _
  | succ fuel ih =>
    intro q hq
    rw [drainAux]
    cases hx : popMin q with
    | none =>
      obtain rfl := popMin_none_iff.mp hx
      exact List.Perm.refl _
    | some p =>
      cases p with
      | mk m rest =>
        have hlen := popMin_length hx
        have : rest.length ≤ fuel := by omega
        exact ((ih rest this).cons m).trans (popMin_perm hx).symm

/-- The drain loop emits a permutation of what was pushed. -/
lemma drain_perm (q : List (Nat × String)) : (drain q).Perm q :=
  drainAux_perm q.length q (le_refl _)

lemma drainAux_sorted : ∀ (fuel : Nat) (q : List (Nat × String)), q.length ≤ fuel →
    (drainAux fuel q).Pairwise fragLe := by
  intro fuel
  induction fuel with
  | zero => intro q _; exact List.Pairwise.nil
  | succ fuel ih =>
    intro q hq
    rw [drainAux]
    cases hx : popMin q with
    | none => exact List.Pairwise.nil
    | some p =>
      cases p with
      | mk m rest =>
        have hlen := popMin_length hx
        have hrest : rest.length ≤ fuel := by omega
        refine List.Pairwise.cons ?_ (ih rest hrest)
        intro y hy
        have hyrest : y ∈ rest := ((drainAux_perm fuel rest hrest).mem_iff).mp hy
        have hyq : y ∈ q := ((popMin_perm hx).mem_iff).mpr (List.mem_cons_of_mem m hyrest)
        exact popMin_min hx y hyq

/-- The drain loop emits its entries in nondecreasing `(offset, content)`
order: `heapq` on `(priority, item)` tuples is a min-heap. -/
lemma drain_sorted (q : List (Nat × String)) : (drain q).Pairwise fragLe :=
  drainAux_sorted q.length q (le_refl _)

/-- The drain order is exactly the canonical stable sort of the pushed
entries: the queue's output is a fixed function of the pushed multiset. -/
lemma drain_eq_insertionSort (q : List (Nat × String)) :
    drain q = List.insertionSort fragLe q :=
  List.eq_of_perm_of_sorted
    ((drain_perm q).trans (List.perm_insertionSort fragLe q).symm)
    (drain_sorted q)
    (List.sorted_insertionSort fragLe q)

/-- Membership in the fuel-bounded window-start list. -/
lemma windowStartsAux_mem : ∀ (fuel page num p : Nat),
    p ∈ windowStartsAux fuel page num ↔ ∃ i, i < fuel ∧ p = page + 2000 * i ∧ p < num := by
  intro fuel
  induction fuel with
  | zero =>
    intro page num p
    simp [windowStartsAux]
  | succ fuel ih =>
    intro page num p
    rw [windowStartsAux]
    by_cases hpn : page < num
    · rw [if_pos hpn, List.mem_cons, ih (page + 2000) num p]
      constructor
      · rintro (rfl | ⟨i, hi, rfl, hlt⟩)
        · exact ⟨0, by omega, by omega, hpn⟩
        · exact ⟨i + 1, by omega, by omega, hlt⟩
      · rintro ⟨i, hi, rfl, hlt⟩
        cases i with
        | zero => exact Or.inl (by omega)
        | succ j => exact Or.inr ⟨j, by omega, by omega, hlt⟩
    · rw [if_neg hpn]
      constructor
      · rintro ⟨⟩
      · rintro ⟨i, _, rfl, hlt⟩
        omega

/-- The window-start pages issued for a document are exactly the pages
`2000 * i + 1` that lie strictly below `num_pages`. -/
lemma windowStarts_mem (num p : Nat) :
    p ∈ windowStarts num ↔ ∃ i, p = 2000 * i + 1 ∧ p < num := by
  rw [windowStarts, windowStartsAux_mem]
  constructor
  · rintro ⟨i, _, rfl, hlt⟩
    exact ⟨i, by omega, hlt⟩
  · rintro ⟨i, rfl, hlt⟩
    exact ⟨i, by omega, by omega, hlt⟩

/-- Window starts are issued in strictly ascending page order. -/
lemma windowStartsAux_sorted : ∀ (fuel page num : Nat),
    (windowStartsAux fuel page num).Pairwise (· < ·) := by
  intro fuel
  induction fuel with
  | zero => intro page num; exact List.Pairwise.nil
  | succ fuel ih =>
    intro page num
    rw [windowStartsAux]
    by_cases hpn : page < num
    · rw [if_pos hpn]
      refine List.Pairwise.cons ?_ (ih (page + 2000) num)
      intro q hq
      obtain ⟨i, _, rfl, _⟩ := (windowStartsAux_mem fuel (page + 2000) num q).mp hq
      omega
    · rw [if_neg hpn]
      exact List.Pairwise.nil

/-- The specification-side Span Ordering Engine output order: a stable
sort of the pushed entries by `(offset, content)`.  Comparing the code's
drain against this fixed function settles the tie-break question. -/
def canonicalEmitted (min_word_threshold : Nat) (result : AnalyzeResult) :
    List (Nat × String) :=
  List.insertionSort fragLe (pqEntries min_word_threshold result)

/-- Specification-side output string built from `canonicalEmitted`. -/
def canonicalOCR (min_word_threshold : Nat) (result : AnalyzeResult) : String :=
  (canonicalEmitted min_word_threshold result).foldl (fun acc e => acc ++ e.2 ++ "\n") ""

/-- C1: for every analysis result, the Span Ordering Engine emits its
fragments in ascending-offset order — any fragment A emitted before a
fragment B satisfies `offset(A) ≤ offset(B)` — and the output string is
the in-order concatenation of the emitted fragments, each followed by a
newline. -/
theorem spanOrdering_output_ascending (min_word_threshold : Nat) (result : AnalyzeResult) :
    (emitted min_word_threshold result).Pairwise (fun a b => a.1 ≤ b.1)
    ∧ OCR_text_from_pdf min_word_threshold result =
      (emitted min_word_threshold result).foldl (fun acc e => acc ++ e.2 ++ "\n") "" := by
  refine ⟨?_, rfl⟩
  exact (drain_sorted _).imp (fun h => by rcases h with h | ⟨h, _⟩ <;> omega)

/-- C2: `analyze_document` issues the windows `"{page}-{page+1999}"` for
start pages `2000*i + 1` exactly while the start page is below
`num_pages`, in ascending page order; for a 4001-page document the
windows are exactly `"1-2000"` then `"2001-4000"`, and the output is
their results concatenated in that order. -/
theorem analyze_document_window_arithmetic :
    windows 4001 = ["1-2000", "2001-4000"]
    ∧ (∀ ocr : Option String → String,
        analyze_document ocr "pdf" 4001 = ocr (some "1-2000") ++ ocr (some "2001-4000"))
    ∧ (∀ num_pages page, page ∈ windowStarts num_pages ↔
        ∃ i, page = 2000 * i + 1 ∧ page < num_pages)
    ∧ (∀ num_pages, (windowStarts num_pages).Pairwise (· < ·)) := by
  have hw : windows 4001 = ["1-2000", "2001-4000"] := by decide
  refine ⟨hw, ?_, windowStarts_mem, fun num_pages => windowStartsAux_sorted _ _ _⟩
  intro ocr
  simp only [analyze_document, if_neg (by decide : ¬(("pdf" == "docx") = true)), hw]
  rfl

/-- C3 counterexample: the suppressed paragraph's content can still occur
as a standalone line of the output.  A one-column table whose single
header cell reads `"| --- |"` renders a separator line equal to that very
string, so the paragraph with that content (suppressed by the cell-match
rule, at a different offset than the table) is absent from the queue yet
its text is a line of the output. -/
def pSep : Paragraph := ⟨"| --- |", none, [⟨5⟩]⟩

/-- The one-column table whose cell content equals its own rendered
separator row. -/
def tSep : Table := ⟨[⟨0, "| --- |"⟩], 1, [⟨0⟩]⟩

/-- Analysis result combining `pSep` and `tSep`. -/
def rSep : AnalyzeResult := ⟨[pSep], [tSep]⟩

/-- C3 (counterexample): in `rSep` the paragraph `pSep` matches a table
cell and has a different offset than the table, yet its content appears
as a standalone line (a newline-delimited segment) of the engine's
output. -/
theorem suppressed_paragraph_line_counterexample :
    pSep ∈ rSep.paragraphs
    ∧ cellMatch rSep pSep.content = true
    ∧ firstOffset pSep.spans ≠ firstOffset tSep.spans
    ∧ pSep.content.toList ∈ pysplit ['\n'] (OCR_text_from_pdf 1 rSep).toList := by
  exact ⟨by decide, rfl, by decide, by decide⟩

/-- C3 (amended): a paragraph whose content equals some table cell's
content is never inserted into the Ordering Queue — regardless of the
threshold and of its offset — so it is never emitted as a paragraph
fragment; any emitted fragment carrying that content is a rendered
table.  (Its text can still occur as an output *line* only inside a
table rendering, as the counterexample shows.) -/
theorem suppressed_paragraph_never_pushed (min_word_threshold : Nat)
    (result : AnalyzeResult) (p : Paragraph) (_hp : p ∈ result.paragraphs)
    (hc : cellMatch result p.content = true) :
    p.content ∉ (paragraphEntries min_word_threshold result).map Prod.snd
    ∧ ∀ e ∈ emitted min_word_threshold result, e.2 = p.content →
      e ∈ tableEntries result := by
  have hnp : p.content ∉ (paragraphEntries min_word_threshold result).map Prod.snd := by
    intro hmem
    simp only [paragraphEntries, List.map_map, List.mem_map, Function.comp,
      List.mem_filter] at hmem
    obtain ⟨q, ⟨_, hkeep⟩, hqc⟩ := hmem
    simp only [keepParagraph, Bool.and_eq_true, Bool.not_eq_true'] at hkeep
    rw [hqc, hc] at hkeep
    cases hkeep.1.1
  refine ⟨hnp, ?_⟩
  intro e he heq
  have hq : e ∈ pqEntries min_word_threshold result := ((drain_perm _).mem_iff).mp he
  rcases List.mem_append.mp hq with hl | hr
  · exact absurd (List.mem_map.mpr ⟨e, hl, heq⟩) hnp
  · exact hr

/-- A paragraph duplicating a data cell of a table, used to witness the
amended C3 at a concrete input. -/
def pDup : Paragraph := ⟨"Alice", none, [⟨7⟩]⟩

/-- A table containing the cell `pDup` duplicates. -/
def tDup : Table := ⟨[⟨0, "Name"⟩, ⟨1, "Alice"⟩], 2, [⟨0⟩]⟩

/-- Analysis result combining `pDup` and `tDup`. -/
def rDup : AnalyzeResult := ⟨[pDup], [tDup]⟩

/-- C3 witness: the amended theorem applied to the concrete result
`rDup`, discharging both hypotheses by computation. -/
theorem suppressed_paragraph_never_pushed_witness :
    "Alice" ∉ (paragraphEntries 1 rDup).map Prod.snd
    ∧ ∀ e ∈ emitted 1 rDup, e.2 = "Alice" → e ∈ tableEntries rDup :=
  suppressed_paragraph_never_pushed 1 rDup pDup (by decide) (by decide)

/-- A three-word paragraph whose role marks it as a page number. -/
def pPageNum : Paragraph := ⟨"a b c", some "pageNumber", [⟨0⟩]⟩

/-- Analysis result holding only `pPageNum`. -/
def rPageNum : AnalyzeResult := ⟨[pPageNum], []⟩

/-- C4 (counterexample): a paragraph whose word count (3) strictly
exceeds the threshold (1) does NOT always appear in the output — here it
is suppressed by the page-number filter and the output is empty. -/
theorem wordcount_filter_counterexample :
    pPageNum ∈ rPageNum.paragraphs
    ∧ wordCount pPageNum.content > 1
    ∧ OCR_text_from_pdf 1 rPageNum = ""
    ∧ pPageNum.content.toList ∉ pysplit ['\n'] (OCR_text_from_pdf 1 rPageNum).toList := by
  exact ⟨by decide, by decide, rfl, by decide⟩

/-- C4 (amended): a paragraph whose word count is at most the threshold
is never inserted into the Ordering Queue (no paragraph entry carries its
content); a paragraph whose word count strictly exceeds the threshold is
emitted provided it also passes the other two filters (no cell match,
role not `'pageNumber'`), i.e. whenever the push guard holds. -/
theorem wordcount_filter_rule (min_word_threshold : Nat) (result : AnalyzeResult)
    (p : Paragraph) (hp : p ∈ result.paragraphs) :
    (wordCount p.content ≤ min_word_threshold →
      p.content ∉ (paragraphEntries min_word_threshold result).map Prod.snd)
    ∧ (keepParagraph min_word_threshold result p = true →
      (firstOffset p.spans, p.content) ∈ emitted min_word_threshold result) := by
  constructor
  · intro hw hmem
    simp only [paragraphEntries, List.map_map, List.mem_map, Function.comp,
      List.mem_filter] at hmem
    obtain ⟨q, ⟨_, hkeep⟩, hqc⟩ := hmem
    simp only [keepParagraph, Bool.and_eq_true, decide_eq_true_eq] at hkeep
    rw [hqc] at hkeep
    omega
  · intro hk
    have hpe : (firstOffset p.spans, p.content) ∈ paragraphEntries min_word_threshold result :=
      List.mem_map.mpr ⟨p, List.mem_filter.mpr ⟨hp, hk⟩, rfl⟩
    exact ((drain_perm _).mem_iff).mpr (List.mem_append_left _ hpe)

/-- A one-word paragraph, filtered out at the default threshold. -/
def pShort : Paragraph := ⟨"ab", none, [⟨0⟩]⟩

/-- A two-word paragraph passing every filter. -/
def pLong : Paragraph := ⟨"a b", none, [⟨5⟩]⟩

/-- Analysis result holding `pShort` and `pLong` and no table. -/
def rWords : AnalyzeResult := ⟨[pShort, pLong], []⟩

/-- C4 witness: both halves of the amended theorem at the concrete result
`rWords` and the default threshold 1, hypotheses discharged by
computation. -/
theorem wordcount_filter_rule_witness :
    "ab" ∉ (paragraphEntries 1 rWords).map Prod.snd
    ∧ (5, "a b") ∈ emitted 1 rWords :=
  ⟨(wordcount_filter_rule 1 rWords pShort (by decide)).1 (by decide),
   (wordcount_filter_rule 1 rWords pLong (by decide)).2 (by decide)⟩

/-- The table of the specification's rendering example. -/
def tExample : Table := ⟨[⟨0, "Name"⟩, ⟨0, "Age"⟩, ⟨1, "Alice"⟩, ⟨1, "30"⟩], 2, [⟨0⟩]⟩

/-- C5: `table_to_markdown` on the header row `["Name","Age"]` with the
single data row `["Alice","30"]` produces exactly the three markdown
lines `| Name | Age |`, `| --- | --- |`, `| Alice | 30 |` (each
newline-terminated). -/
theorem table_to_markdown_example :
    table_to_markdown tExample = "| Name | Age |\n| --- | --- |\n| Alice | 30 |\n"
    ∧ (pysplit ['\n'] (table_to_markdown tExample).toList).map String.mk =
      ["| Name | Age |", "| --- | --- |", "| Alice | 30 |", ""] :=
  ⟨rfl, rfl⟩

/-- C6: `parse_into_json` on a response fenced by the uppercase marker
parses to the object with field `a = 1`; on the same response with a
lowercase fence (and no uppercase match) it falls back to the lowercase
marker and returns the same object. -/
theorem parse_into_json_fenced :
    parse_into_json "```JSON\n\x7b\"a\":1\x7d\n```" = some (Json.obj [("a", Json.num 1)])
    ∧ parse_into_json "```json\n\x7b\"a\":1\x7d\n```" = some (Json.obj [("a", Json.num 1)]) :=
  ⟨rfl, rfl⟩

/-- C7 (counterexample): a response with no fence marker at all does NOT
always raise — a bare JSON response parses successfully, because
`split('```')[0]` of a fence-free string is the whole string, which
`json.loads` then accepts. -/
theorem parse_no_fence_counterexample :
    occursIn tickSep "\x7b\"a\":1\x7d".toList = false
    ∧ parse_into_json "\x7b\"a\":1\x7d" = some (Json.obj [("a", Json.num 1)])
    ∧ (parse_into_json "\x7b\"a\":1\x7d").isSome = true :=
  ⟨rfl, rfl, rfl⟩

/-- C7 (amended): a response containing no fence marker is passed whole
to the JSON parser: `parse_into_json` returns exactly `json.loads` of
the full response, so it raises precisely when the response is not
itself valid JSON, and returns the parsed value when it is. -/
theorem parse_into_json_no_fence (s : String)
    (h : occursIn tickSep s.toList = false) :
    parse_into_json s = json_loads s.toList := by
  have huc : occursIn ucSep s.toList = false :=
    not_occursIn_mono (by decide) h
  have hlc : occursIn (pylower ucSep) s.toList = false :=
    not_occursIn_mono (by decide) h
  have e1 : pysplit ucSep s.toList = [s.toList] := pysplit_of_not_occurs huc
  have e2 : pysplit tickSep s.toList = [s.toList] := pysplit_of_not_occurs h
  simp only [String.toList] at hlc e1 e2
  simp [parse_into_json, String.toList, e1, hlc, e2]

/-- C7 witness: the amended theorem at the fence-free response
`"hello"`, which is also invalid JSON, so the parse fails there exactly
as `json.loads` does. -/
theorem parse_into_json_no_fence_witness :
    parse_into_json "hello" = json_loads "hello".toList
    ∧ json_loads "hello".toList = none :=
  ⟨parse_into_json_no_fence "hello" (by decide), rfl⟩

/-- C8: the Span Ordering Engine is deterministic with a fixed, stable
tie-break: its output equals, for every input (including inputs with
repeated offsets), the output of the canonical stable sort of the pushed
entries by `(offset, content)` — a function of the input alone, so two
runs on the same analysis result produce the identical output string. -/
theorem spanOrdering_deterministic (min_word_threshold : Nat) (result : AnalyzeResult) :
    OCR_text_from_pdf min_word_threshold result = canonicalOCR min_word_threshold result := by
  unfold OCR_text_from_pdf canonicalOCR emitted canonicalEmitted
  rw [drain_eq_insertionSort]

/-- C9: a one-page PDF gets no analysis window and an empty result (the
loop guard `1 < 1` fails at once); no document's final page is ever a
window start; and for `num_pages = 2000*k + 1` the final page lies
beyond the end `page + 1999` of every issued window. -/
theorem analyze_document_boundary :
    (∀ ocr : Option String → String, analyze_document ocr "pdf" 1 = "")
    ∧ (∀ num_pages, num_pages ∉ windowStarts num_pages)
    ∧ (∀ k page, page ∈ windowStarts (2000 * k + 1) → page + 1999 < 2000 * k + 1) := by
  refine ⟨fun ocr => rfl, ?_, ?_⟩
  · intro num_pages hmem
    obtain ⟨i, _, hlt⟩ := (windowStarts_mem _ _).mp hmem
    omega
  · intro k page hmem
    obtain ⟨i, rfl, hlt⟩ := (windowStarts_mem _ _).mp hmem
    omega

/-- C10: with the `MIN_WORD_THRESHOLD` environment variable unset the
configured threshold is the integer 1 and the word-count comparison is a
well-typed int-to-int comparison; with the variable set, `os.environ.get`
returns a string and the comparison `len(content.split(' ')) > threshold`
raises `TypeError` for every paragraph content reaching the check. -/
theorem min_word_threshold_typing :
    MIN_WORD_THRESHOLD none = PyVal.int 1
    ∧ (∀ content : String,
        pyGt (PyVal.int (wordCount content)) (MIN_WORD_THRESHOLD none) =
          Except.ok (decide ((1 : Int) < (wordCount content : Int))))
    ∧ (∀ s content : String,
        pyGt (PyVal.int (wordCount content)) (MIN_WORD_THRESHOLD (some s)) =
          Except.error "TypeError") :=
  ⟨rfl, fun _ => rfl, fun _ _ => rfl⟩
